import Mathlib

/-!
# Verification of the foundry build-configuration resolver

Shallow embedding of `cli/src/cmd/build.rs` (`BuildArgs` and its helper
methods `contracts_path`, `artifacts_path`, `libs`, the remapping
aggregation in `BuildArgs::project`, the `remappings_from_newline` helper
and the library-link unflattening loop), together with proofs of the
properties the design document states about them.

Modelling choices:
* A filesystem path (`PathBuf`) is modelled by its list of components
  (`FsPath := List String`).  `Path::join` with a relative argument is
  list append; `Path::ends_with` is component-wise suffix testing, which
  is exactly `std::path::Path::ends_with`'s semantics.
* External routines that `build.rs` merely calls
  (`ProjectPathsConfig::find_source_dir`, `find_artifacts_dir`,
  `find_libs`, `Remapping::find_many`, `Remapping::from_str`,
  `Project::cleanup`, and the filesystem reads) are passed in as
  parameters, so the resolver is a pure function of its inputs.
* A Rust `panic!`/`expect` aborts the whole resolution; it is modelled by
  `Except String` with the panic message as the error value.
* `BTreeMap` is modelled as an association list with replace-on-insert;
  the claims only observe lookups and per-key contents, which agree.
-/

namespace Foundry

/-- A filesystem path, as its list of components. -/
abbrev FsPath := List String

/-- `Path::join` for a relative right-hand side: append the components. -/
def FsPath.join (p q : FsPath) : FsPath := p ++ q

/-- `std::path::Path::ends_with`: `q` is a component-wise suffix of `p`. -/
def FsPath.ends_with (p q : FsPath) : Bool := q.isSuffixOf p

/-- The remapping record of `ethers::solc::remappings::Remapping`:
a `name` (import prefix) and a `path` (target). -/
structure Remapping where
  name : String
  path : String
deriving DecidableEq, Repr

/-- The lexicographic key underlying the derived `Ord` on `Remapping`
(field order: `name`, then `path`). -/
def Remapping.key (r : Remapping) : String ×ₗ String := toLex (r.name, r.path)

theorem Remapping.key_injective : Function.Injective Remapping.key := by
  intro a b h
  cases a; cases b
  simpa [Remapping.key, Prod.ext_iff] using h

/-- The derived (total, lexicographic) order on `Remapping`. -/
instance : LinearOrder Remapping := LinearOrder.lift' Remapping.key Remapping.key_injective

/-- The command-line arguments of the build command that feed resolution
(`BuildArgs` in `build.rs`; the compiler-tuning sub-struct and fields that
only affect the downstream compiler invocation are carried through
untouched and are omitted). -/
structure BuildArgs where
  contracts : Option FsPath
  remappings : List Remapping
  remappings_env : Option String
  lib_paths : List FsPath
  out_path : Option FsPath
  ignored_error_codes : List Nat
  no_auto_detect : Bool
  force : Bool
  hardhat : Bool
  libraries : List String
deriving Repr

/-- `BuildArgs::contracts_path`: determine the source directory within
`root`.  `find_source_dir` stands for the external heuristic
`ProjectPathsConfig::find_source_dir`. -/
def BuildArgs.contracts_path (args : BuildArgs) (find_source_dir : FsPath → FsPath)
    (root : FsPath) : FsPath :=
  match args.contracts with
  | some contracts => root.join contracts
  | none => if args.hardhat then root.join ["contracts"] else find_source_dir root

/-- `BuildArgs::artifacts_path`: determine the artifacts directory within
`root`.  `find_artifacts_dir` stands for the external heuristic
`ProjectPathsConfig::find_artifacts_dir`. -/
def BuildArgs.artifacts_path (args : BuildArgs) (find_artifacts_dir : FsPath → FsPath)
    (root : FsPath) : FsPath :=
  match args.out_path with
  | some artifacts => root.join artifacts
  | none => if args.hardhat then root.join ["artifacts"] else find_artifacts_dir root

/-- `BuildArgs::libs`: determine the library directories.  `find_libs`
stands for the external heuristic `ProjectPathsConfig::find_libs`. -/
def BuildArgs.libs (args : BuildArgs) (find_libs : FsPath → List FsPath)
    (root : FsPath) : List FsPath :=
  if args.lib_paths.isEmpty then
    if args.hardhat then [root.join ["node_modules"]] else find_libs root
  else
    if args.hardhat && !(args.lib_paths.any fun lib => lib.ends_with ["node_modules"]) then
      args.lib_paths ++ [root.join ["node_modules"]]
    else
      args.lib_paths

/-- `Vec::dedup`: remove consecutive duplicate elements. -/
def dedupConsecutive {α : Type} [DecidableEq α] : List α → List α
  | [] => []
  | [a] => [a]
  | a :: b :: rest =>
    if a = b then dedupConsecutive (b :: rest) else a :: dedupConsecutive (b :: rest)

/-- `remappings.sort_unstable(); remappings.dedup();` — sort by the derived
order, then drop consecutive duplicates.  A comparison sort for a linear
(antisymmetric) order has a unique sorted result, so `insertionSort`
computes the same list as Rust's unstable sort. -/
def resolveRemappings (rs : List Remapping) : List Remapping :=
  dedupConsecutive (List.insertionSort (fun a b => a ≤ b) rs)

/-- Rust `str::split` with a one-character pattern, on the character
list: splitting `""` gives `[""]`, adjacent separators give empty
fields, and a trailing separator gives a trailing empty field. -/
def splitOnChar (c : Char) : List Char → List (List Char)
  | [] => [[]]
  | x :: xs =>
    match splitOnChar c xs with
    | [] => [[]]
    | r :: rs => if x = c then [] :: r :: rs else (x :: r) :: rs

/-- Rust `str::split` with a one-character pattern, as a `String` function. -/
def splitOnCharS (c : Char) (s : String) : List String :=
  (splitOnChar c s.toList).map List.asString

/-- The body of the `remappings_from_newline` helper after splitting:
parse each line in order, aborting with the source's panic message at the
first line `parse` rejects.  `parse` stands for the external
`Remapping::from_str`. -/
def parseRemappingLines (parse : String → Option Remapping) :
    List String → Except String (List Remapping)
  | [] => .ok []
  | x :: rest =>
    match parse x with
    | some r => (parseRemappingLines parse rest).map fun rs => r :: rs
    | none => .error ("could not parse remapping: " ++ x)

/-- `remappings_from_newline` in `BuildArgs::project`: split on newlines,
discard empty lines, parse the rest (panic on a malformed line). -/
def remappings_from_newline (parse : String → Option Remapping) (s : String) :
    Except String (List Remapping) :=
  parseRemappingLines parse ((splitOnCharS '\n' s).filter fun x => !x.isEmpty)

/-- Steps 4.2.1–4.2.4 of `BuildArgs::project`: concatenate the remappings
auto-discovered from the library paths (`discovered`, the flattened
`Remapping::find_many` results), the manually supplied ones, those parsed
from the environment override, and those parsed from `remappings.txt`
(whose content is `none` when the file is missing or unreadable — the
`if let Ok(..)` silently skips it), then sort and dedup. -/
def aggregateRemappings (parse : String → Option Remapping)
    (discovered manual : List Remapping) (env remappingsTxt : Option String) :
    Except String (List Remapping) := do
  let envRs ← match env with
    | some e => remappings_from_newline parse e
    | none => Except.ok []
  let fileRs ← match remappingsTxt with
    | some c => remappings_from_newline parse c
    | none => Except.ok []
  Except.ok (resolveRemappings (discovered ++ manual ++ envRs ++ fileRs))

/-- The nested library-link table (`BTreeMap<String, BTreeMap<String, String>>`),
modelled as an association list from file to an association list from
library name to address. -/
abbrev LibTable := List (String × List (String × String))

/-- `BTreeMap::insert`: replace the value at the key, or append the pair. -/
def insertAssoc (m : List (String × String)) (k v : String) : List (String × String) :=
  match m with
  | [] => [(k, v)]
  | (k', v') :: rest =>
    if k' = k then (k, v) :: rest else (k', v') :: insertAssoc rest k v

/-- Lookup in the single-level map. -/
def lookupAssoc (m : List (String × String)) (k : String) : Option String :=
  match m with
  | [] => none
  | (k', v') :: rest => if k' = k then some v' else lookupAssoc rest k

/-- `libraries.entry(file).or_insert_with(BTreeMap::default).insert(lib, addr)`. -/
def insertNested (tbl : LibTable) (file lib addr : String) : LibTable :=
  match tbl with
  | [] => [(file, insertAssoc [] lib addr)]
  | (f, m) :: rest =>
    if f = file then (f, insertAssoc m lib addr) :: rest
    else (f, m) :: insertNested rest file lib addr

/-- Lookup of a (file, library) pair in the nested table. -/
def lookupNested (tbl : LibTable) (file lib : String) : Option String :=
  match tbl with
  | [] => none
  | (f, m) :: rest => if f = file then lookupAssoc m lib else lookupNested rest file lib

/-- The library-unflattening loop of `BuildArgs::project`: for each string,
split on `:`; the first three fields (any of which may be empty, with
fields past the third ignored) are file, library and address; a string
with fewer than three fields hits `items.next().expect(..)` on `None`,
which panics with `could not parse libraries` and aborts resolution. -/
def parseLibrariesAux (tbl : LibTable) : List String → Except String LibTable
  | [] => .ok tbl
  | l :: rest =>
    match splitOnCharS ':' l with
    | file :: lib :: addr :: _ => parseLibrariesAux (insertNested tbl file lib addr) rest
    | _ => .error "could not parse libraries"

/-- The whole unflattening loop, starting from `BTreeMap::default()`. -/
def parseLibraries (ls : List String) : Except String LibTable :=
  parseLibrariesAux [] ls

/-- The resolved project configuration assembled by `BuildArgs::project`
(the fields of the built `Project` that resolution determines; compiler
settings other than the link table are carried through unchanged and are
omitted). -/
structure ProjectConfig where
  root : FsPath
  sources : FsPath
  artifacts : FsPath
  lib_paths : List FsPath
  remappings : List Remapping
  libraries : LibTable
  ignored_error_codes : List Nat
  no_auto_detect : Bool
deriving Repr

/-- `BuildArgs::project`: the whole resolution, for an already
canonicalized `root`.  External collaborators appear as parameters:
the three directory heuristics, `find_many` (per-library-path remapping
auto-discovery), `parse` (`Remapping::from_str`), `remappingsTxt` (the
result of reading `root/remappings.txt`, `none` when missing), and
`cleanup` (the effect of `project.cleanup()`, run last and only under
`--force`; its failure aborts resolution via `?`). -/
def BuildArgs.project (args : BuildArgs)
    (find_source_dir find_artifacts_dir : FsPath → FsPath)
    (find_libs : FsPath → List FsPath) (find_many : FsPath → List Remapping)
    (parse : String → Option Remapping) (root : FsPath)
    (remappingsTxt : Option String) (cleanup : Except String Unit) :
    Except String ProjectConfig := do
  let contracts := args.contracts_path find_source_dir root
  let artifacts := args.artifacts_path find_artifacts_dir root
  let lib_paths := args.libs find_libs root
  let discovered := lib_paths.flatMap find_many
  let remappings ← aggregateRemappings parse discovered args.remappings
    args.remappings_env remappingsTxt
  let libraries ← parseLibraries args.libraries
  let proj : ProjectConfig :=
    { root, sources := contracts, artifacts, lib_paths, remappings, libraries,
      ignored_error_codes := args.ignored_error_codes,
      no_auto_detect := args.no_auto_detect }
  if args.force then
    cleanup
  Except.ok proj

/-- A `BuildArgs` value with every field empty or off; concrete test
inputs override the fields they exercise. -/
def argsDefault : BuildArgs :=
  { contracts := none, remappings := [], remappings_env := none, lib_paths := [],
    out_path := none, ignored_error_codes := [], no_auto_detect := false,
    force := false, hardhat := false, libraries := [] }

/-! ## Helper lemmas -/

theorem dedupConsecutive_sublist {α : Type} [DecidableEq α] :
    ∀ l : List α, List.Sublist (dedupConsecutive l) l
  | [] => by simp [dedupConsecutive]
  | [a] => by simp [dedupConsecutive]
  | a :: b :: rest => by
    rw [dedupConsecutive]
    split
    · exact (dedupConsecutive_sublist (b :: rest)).cons a
    · exact (dedupConsecutive_sublist (b :: rest)).cons₂ a

theorem mem_dedupConsecutive {α : Type} [DecidableEq α] (x : α) :
    ∀ l : List α, x ∈ dedupConsecutive l ↔ x ∈ l
  | [] => Iff.rfl
  | [a] => Iff.rfl
  | a :: b :: rest => by
    rw [dedupConsecutive]
    split
    next h =>
      subst h
      rw [mem_dedupConsecutive x (a :: rest)]
      simp [List.mem_cons]
    next h =>
      simp [List.mem_cons, mem_dedupConsecutive x (b :: rest)]

theorem dedupConsecutive_nodup {α : Type} [LinearOrder α] [DecidableEq α] :
    ∀ l : List α, l.Sorted (· ≤ ·) → (dedupConsecutive l).Nodup
  | [], _ => by simp [dedupConsecutive]
  | [a], _ => by simp [dedupConsecutive]
  | a :: b :: rest, h => by
    have hs : (b :: rest).Sorted (· ≤ ·) := (List.sorted_cons.mp h).2
    rw [dedupConsecutive]
    split
    next => exact dedupConsecutive_nodup (b :: rest) hs
    next hne =>
      refine List.nodup_cons.mpr ⟨?_, dedupConsecutive_nodup (b :: rest) hs⟩
      intro hmem
      have hab : a < b :=
        lt_of_le_of_ne ((List.sorted_cons.mp h).1 b (by simp)) hne
      rcases List.mem_cons.mp ((mem_dedupConsecutive a (b :: rest)).mp hmem) with heq | hmem2
      · exact hne heq
      · exact absurd ((List.sorted_cons.mp hs).1 a hmem2) (not_le.mpr hab)

theorem resolveRemappings_sorted (l : List Remapping) :
    (resolveRemappings l).Sorted (· ≤ ·) :=
  List.Pairwise.sublist (dedupConsecutive_sublist _)
    (List.sorted_insertionSort _ l)

theorem resolveRemappings_nodup (l : List Remapping) :
    (resolveRemappings l).Nodup :=
  dedupConsecutive_nodup _ (List.sorted_insertionSort _ l)

theorem mem_resolveRemappings (x : Remapping) (l : List Remapping) :
    x ∈ resolveRemappings l ↔ x ∈ l := by
  rw [resolveRemappings, mem_dedupConsecutive, List.mem_insertionSort]

theorem aggregateRemappings_ok_shape (parse : String → Option Remapping)
    (discovered manual : List Remapping) (env remappingsTxt : Option String)
    (rs : List Remapping)
    (h : aggregateRemappings parse discovered manual env remappingsTxt = Except.ok rs) :
    ∃ combined, rs = resolveRemappings combined := by
  rcases env with _ | e
  · rcases remappingsTxt with _ | c
    · simp [aggregateRemappings, Except.instMonad, Except.bind] at h
      exact ⟨_, h.symm⟩
    · rcases hc : remappings_from_newline parse c with m | fileRs <;>
        simp [aggregateRemappings, hc, Except.instMonad, Except.bind] at h
      exact ⟨_, h.symm⟩
  · rcases remappingsTxt with _ | c
    · rcases he : remappings_from_newline parse e with m | envRs <;>
        simp [aggregateRemappings, he, Except.instMonad, Except.bind] at h
      exact ⟨_, h.symm⟩
    · rcases he : remappings_from_newline parse e with m | envRs <;>
        rcases hc : remappings_from_newline parse c with m' | fileRs <;>
        simp [aggregateRemappings, he, hc, Except.instMonad, Except.bind] at h
      exact ⟨_, h.symm⟩

/-! ## The claims -/

/-- C3: any combined multiset of remappings gathered from the four
sources resolves to a sorted sequence that contains each distinct
`(name, path)` pair exactly once (it is duplicate-free and has exactly
the members of the input), and two remappings sharing a `name` but with
different `path`s are both retained; every successful aggregation output
has this resolved form. -/
theorem resolveRemappings_sorted_nodup_complete (l : List Remapping) :
    (resolveRemappings l).Sorted (· ≤ ·) ∧
    (resolveRemappings l).Nodup ∧
    (∀ x, x ∈ resolveRemappings l ↔ x ∈ l) ∧
    (∀ r₁ r₂, r₁ ∈ l → r₂ ∈ l → r₁.name = r₂.name → r₁.path ≠ r₂.path →
      r₁ ∈ resolveRemappings l ∧ r₂ ∈ resolveRemappings l) ∧
    (∀ parse discovered manual env remappingsTxt rs,
      aggregateRemappings parse discovered manual env remappingsTxt = Except.ok rs →
      ∃ combined, rs = resolveRemappings combined) := by
  refine ⟨resolveRemappings_sorted l, resolveRemappings_nodup l,
    fun x => mem_resolveRemappings x l, ?_, ?_⟩
  · intro r₁ r₂ h₁ h₂ _ _
    exact ⟨(mem_resolveRemappings r₁ l).mpr h₁, (mem_resolveRemappings r₂ l).mpr h₂⟩
  · intro parse discovered manual env remappingsTxt rs h
    exact aggregateRemappings_ok_shape parse discovered manual env remappingsTxt rs h

/-- Witness for C3: two remappings with the same name and different
paths are both retained in the resolved sequence. -/
theorem resolveRemappings_sorted_nodup_complete_witness :
    Remapping.mk "ds-test" "lib1" ∈
      resolveRemappings [Remapping.mk "ds-test" "lib1", Remapping.mk "ds-test" "lib2"] ∧
    Remapping.mk "ds-test" "lib2" ∈
      resolveRemappings [Remapping.mk "ds-test" "lib1", Remapping.mk "ds-test" "lib2"] :=
  (resolveRemappings_sorted_nodup_complete
      [Remapping.mk "ds-test" "lib1", Remapping.mk "ds-test" "lib2"]).2.2.2.1
    (Remapping.mk "ds-test" "lib1") (Remapping.mk "ds-test" "lib2")
    (by decide) (by decide) rfl (by decide)

/-- C1 (counterexample): the code appends `root/node_modules` only when no
explicit path has final component `node_modules` (`Path::ends_with`), not
when none *equals* `root/node_modules`.  With root `proj` and explicit
paths `libs1` and `deps/node_modules` — neither of which equals
`proj/node_modules` — the resolved paths are just the two explicit ones,
not the claimed three-element sequence. -/
theorem libs_hardhat_equality_counterexample :
    (["libs1"] : FsPath) ≠ FsPath.join ["proj"] ["node_modules"] ∧
    (["deps", "node_modules"] : FsPath) ≠ FsPath.join ["proj"] ["node_modules"] ∧
    ({ argsDefault with
        hardhat := true,
        lib_paths := [["libs1"], ["deps", "node_modules"]] } : BuildArgs).libs
      (fun _ => []) ["proj"]
      = [["libs1"], ["deps", "node_modules"]] ∧
    ([["libs1"], ["deps", "node_modules"]] : List FsPath)
      ≠ [["libs1"], ["deps", "node_modules"], FsPath.join ["proj"] ["node_modules"]] :=
  ⟨by decide, by decide, rfl, by decide⟩

/-- C1 (amended): with the Hardhat preset and explicit library paths
`[A, B]` neither of which has `node_modules` as its final path component
(the code's `Path::ends_with` test), the resolved library paths are
exactly `[A, B, root/node_modules]`. -/
theorem libs_hardhat_augmentation (args : BuildArgs) (find_libs : FsPath → List FsPath)
    (root A B : FsPath) (hh : args.hardhat = true) (hl : args.lib_paths = [A, B])
    (hA : A.ends_with ["node_modules"] = false)
    (hB : B.ends_with ["node_modules"] = false) :
    args.libs find_libs root = [A, B, root.join ["node_modules"]] := by
  simp [BuildArgs.libs, hh, hl, hA, hB]

/-- Witness for C1 (amended), at concrete paths `L1`, `L2` under root
`proj`. -/
theorem libs_hardhat_augmentation_witness :
    ({ argsDefault with
        hardhat := true,
        lib_paths := [["L1"], ["L2"]] } : BuildArgs).libs (fun _ => []) ["proj"]
      = [["L1"], ["L2"], FsPath.join ["proj"] ["node_modules"]] :=
  libs_hardhat_augmentation _ _ ["proj"] ["L1"] ["L2"] rfl rfl (by decide) (by decide)

/-- C9: with the Hardhat preset and no explicit library paths, the
resolved library paths are exactly the one-element sequence
`[root/node_modules]`. -/
theorem libs_hardhat_default (args : BuildArgs) (find_libs : FsPath → List FsPath)
    (root : FsPath) :
    ({ args with hardhat := true, lib_paths := [] } : BuildArgs).libs find_libs root
      = [root.join ["node_modules"]] :=
  rfl

/-- C7: the source directory is the explicit value joined under root when
supplied; otherwise `root/contracts` under the Hardhat preset; otherwise
the result of the directory-heuristic search. -/
theorem contracts_path_precedence (args : BuildArgs) (find_source_dir : FsPath → FsPath)
    (root c : FsPath) :
    ({ args with contracts := some c } : BuildArgs).contracts_path find_source_dir root
      = root.join c ∧
    ({ args with contracts := none, hardhat := true } : BuildArgs).contracts_path
      find_source_dir root = root.join ["contracts"] ∧
    ({ args with contracts := none, hardhat := false } : BuildArgs).contracts_path
      find_source_dir root = find_source_dir root :=
  ⟨rfl, rfl, rfl⟩

/-- C10: an explicitly supplied relative source or artifact directory is
joined onto the resolved root, and (whenever the root is nonempty) that
differs from taking the value as-is. -/
theorem explicit_dirs_joined_to_root (args : BuildArgs)
    (find_source_dir find_artifacts_dir : FsPath → FsPath) (root v : FsPath) :
    ({ args with contracts := some v } : BuildArgs).contracts_path find_source_dir root
      = root.join v ∧
    ({ args with out_path := some v } : BuildArgs).artifacts_path find_artifacts_dir root
      = root.join v ∧
    (root ≠ [] → root.join v ≠ v) := by
  refine ⟨rfl, rfl, fun hroot hcontra => ?_⟩
  have hlen := congrArg List.length hcontra
  simp [FsPath.join] at hlen
  exact hroot hlen

/-- Witness for C10 at root `r` and explicit directory `s`. -/
theorem explicit_dirs_joined_to_root_witness :
    ({ argsDefault with contracts := some ["s"] } : BuildArgs).contracts_path
      (fun r => r) ["r"] = FsPath.join ["r"] ["s"] ∧
    FsPath.join ["r"] ["s"] ≠ ["s"] :=
  ⟨(explicit_dirs_joined_to_root argsDefault (fun r => r) (fun r => r) ["r"] ["s"]).1,
    (explicit_dirs_joined_to_root argsDefault (fun r => r) (fun r => r) ["r"] ["s"]).2.2
      (by decide)⟩

theorem lookupAssoc_insertAssoc (m : List (String × String)) (k v : String) :
    lookupAssoc (insertAssoc m k v) k = some v := by
  induction m with
  | nil => simp [insertAssoc, lookupAssoc]
  | cons p rest ih =>
    obtain ⟨k', v'⟩ := p
    rw [insertAssoc]
    split
    next h => simp [lookupAssoc]
    next h => simp [lookupAssoc, h, ih]

theorem lookupNested_insertNested (tbl : LibTable) (file lib addr : String) :
    lookupNested (insertNested tbl file lib addr) file lib = some addr := by
  induction tbl with
  | nil => simp [insertNested, lookupNested, lookupAssoc_insertAssoc]
  | cons p rest ih =>
    obtain ⟨f, m⟩ := p
    rw [insertNested]
    split
    next h => simp [lookupNested, h, lookupAssoc_insertAssoc]
    next h => simp [lookupNested, h, ih]

theorem parseLibrariesAux_error :
    ∀ (ls : List String) (tbl : LibTable) (l : String), l ∈ ls →
      (splitOnCharS ':' l).length < 3 →
      parseLibrariesAux tbl ls = Except.error "could not parse libraries"
  | [], _, l, hl, _ => absurd hl (List.not_mem_nil l)
  | x :: rest, tbl, l, hl, hlen => by
    rw [parseLibrariesAux]
    split
    next file lib addr t hsp =>
      rcases List.mem_cons.mp hl with rfl | hl'
      · rw [hsp] at hlen
        simp at hlen
        omega
      · exact parseLibrariesAux_error rest _ l hl' hlen
    next => rfl

theorem parseLibrariesAux_ok :
    ∀ (ls : List String) (tbl : LibTable),
      (∀ l ∈ ls, 3 ≤ (splitOnCharS ':' l).length) →
      ∃ t, parseLibrariesAux tbl ls = Except.ok t
  | [], tbl, _ => ⟨tbl, rfl⟩
  | x :: rest, tbl, h => by
    rw [parseLibrariesAux]
    split
    next =>
      exact parseLibrariesAux_ok rest _ fun l hl => h l (List.mem_cons_of_mem _ hl)
    next hno =>
      have hx := h x (List.mem_cons_self x rest)
      rcases hsp : splitOnCharS ':' x with _ | ⟨a, _ | ⟨b, _ | ⟨c, t⟩⟩⟩ <;>
        rw [hsp] at hx <;> simp at hx
      exact absurd hsp (hno a b c t)

/-- C2 (counterexample): the code does not require the three
colon-delimited fields to be non-empty.  The link string `A.sol::0xdead`
splits into exactly three fields of which the middle one is empty, yet
resolution succeeds and produces a table entry with the empty library
name instead of failing. -/
theorem parseLibraries_empty_field_counterexample :
    splitOnCharS ':' "A.sol::0xdead" = ["A.sol", "", "0xdead"] ∧
    parseLibraries ["A.sol::0xdead"] = Except.ok [("A.sol", [("", "0xdead")])] :=
  ⟨rfl, rfl⟩

/-- C2 (amended): a library-linking string that splits into fewer than
three colon-delimited fields (the fields may be empty, and fields past
the third are ignored) makes the whole resolution fail with the
malformed-library-link panic message, and no table at all is produced;
when every string has at least three fields, a table is produced. -/
theorem parseLibraries_field_count_spec (ls : List String) :
    (∀ l, l ∈ ls → (splitOnCharS ':' l).length < 3 →
      parseLibraries ls = Except.error "could not parse libraries") ∧
    ((∀ l ∈ ls, 3 ≤ (splitOnCharS ':' l).length) → ∃ t, parseLibraries ls = Except.ok t) :=
  ⟨fun l hl hlen => parseLibrariesAux_error ls [] l hl hlen,
    fun h => parseLibrariesAux_ok ls [] h⟩

/-- Witness for C2 (amended): `A.sol:Lib1` (missing address field) makes
resolution fail with no table. -/
theorem parseLibraries_field_count_witness :
    parseLibraries ["A.sol:Lib1"] = Except.error "could not parse libraries" :=
  (parseLibraries_field_count_spec ["A.sol:Lib1"]).1 "A.sol:Lib1" (by decide) (by decide)

/-- C4: inserting an address for a (file, library) pair that is already
present silently overwrites the previous address — the most recent
insertion wins over any prior table state — and, concretely,
`A.sol:Lib1:0xdead` followed by `A.sol:Lib1:0xbeef` resolves to a table
mapping `(A.sol, Lib1)` to `0xbeef`. -/
theorem library_links_last_write_wins :
    (∀ (tbl : LibTable) (file lib addr : String),
      lookupNested (insertNested tbl file lib addr) file lib = some addr) ∧
    parseLibraries ["A.sol:Lib1:0xdead", "A.sol:Lib1:0xbeef"]
      = Except.ok [("A.sol", [("Lib1", "0xbeef")])] ∧
    lookupNested [("A.sol", [("Lib1", "0xbeef")])] "A.sol" "Lib1" = some "0xbeef" :=
  ⟨lookupNested_insertNested, rfl, rfl⟩

theorem parseRemappingLines_ok_iff (parse : String → Option Remapping) :
    ∀ L : List String, (∃ rs, parseRemappingLines parse L = Except.ok rs) ↔
      ∀ l ∈ L, (parse l).isSome = true
  | [] => by simp [parseRemappingLines]
  | x :: rest => by
    rw [parseRemappingLines]
    rcases hx : parse x with _ | r
    · constructor
      · rintro ⟨rs, h⟩
        exact Except.noConfusion h
      · intro h
        have hsome := h x (List.mem_cons_self x rest)
        rw [hx] at hsome
        exact absurd hsome (by simp)
    · constructor
      · rintro ⟨rs, h⟩ l hl
        rcases List.mem_cons.mp hl with rfl | hl'
        · rw [hx]; rfl
        · rcases hrest : parseRemappingLines parse rest with m | rs'
          · rw [hrest] at h
            exact Except.noConfusion h
          · exact (parseRemappingLines_ok_iff parse rest).mp ⟨rs', hrest⟩ l hl'
      · intro h
        obtain ⟨rs', hrest⟩ := (parseRemappingLines_ok_iff parse rest).mpr
          fun l hl => h l (List.mem_cons_of_mem x hl)
        exact ⟨r :: rs', by rw [hrest]; rfl⟩

theorem parseRemappingLines_error_shape (parse : String → Option Remapping) :
    ∀ (L : List String) (m : String), parseRemappingLines parse L = Except.error m →
      ∃ l, l ∈ L ∧ parse l = none ∧ m = "could not parse remapping: " ++ l
  | [], m, h => Except.noConfusion h
  | x :: rest, m, h => by
    rw [parseRemappingLines] at h
    rcases hx : parse x with _ | r
    · rw [hx] at h
      simp only [Except.error.injEq] at h
      exact ⟨x, List.mem_cons_self x rest, hx, h.symm⟩
    · rw [hx] at h
      rcases hrest : parseRemappingLines parse rest with m' | rs'
      · rw [hrest] at h
        simp only [Except.map, Except.error.injEq] at h
        obtain ⟨l, hl, hp, hm⟩ := parseRemappingLines_error_shape parse rest m' hrest
        exact ⟨l, List.mem_cons_of_mem x hl, hp, by rw [← h]; exact hm⟩
      · rw [hrest] at h
        exact Except.noConfusion h

theorem parseRemappingLines_ok_eq (parse : String → Option Remapping) :
    ∀ (L : List String) (rs : List Remapping),
      parseRemappingLines parse L = Except.ok rs → rs = L.filterMap parse
  | [], rs, h => by
    simp only [parseRemappingLines, Except.ok.injEq] at h
    simp [← h]
  | x :: rest, rs, h => by
    rw [parseRemappingLines] at h
    rcases hx : parse x with _ | r
    · rw [hx] at h
      exact Except.noConfusion h
    · rw [hx] at h
      rcases hrest : parseRemappingLines parse rest with m | rs'
      · rw [hrest] at h
        exact Except.noConfusion h
      · rw [hrest] at h
        simp only [Except.map, Except.ok.injEq] at h
        rw [List.filterMap_cons, hx, ← h]
        exact congrArg (r :: ·) (parseRemappingLines_ok_eq parse rest rs' hrest)

/-- C5: a non-empty line of the newline-split input that `parse` rejects
makes `remappings_from_newline` fail, with the panic message naming the
content of an offending line; it succeeds exactly when every non-empty
line parses, and its output is the parse of the non-empty lines (empty
lines are discarded without error). -/
theorem remappings_from_newline_error_spec (parse : String → Option Remapping)
    (s : String) :
    ((∃ rs, remappings_from_newline parse s = Except.ok rs) ↔
      ∀ l ∈ splitOnCharS '\n' s, l.isEmpty = false → (parse l).isSome = true) ∧
    (∀ m, remappings_from_newline parse s = Except.error m →
      ∃ l, l ∈ splitOnCharS '\n' s ∧ l.isEmpty = false ∧ parse l = none ∧
        m = "could not parse remapping: " ++ l) ∧
    (∀ rs, remappings_from_newline parse s = Except.ok rs →
      rs = ((splitOnCharS '\n' s).filter fun x => !x.isEmpty).filterMap parse) := by
  refine ⟨?_, ?_, ?_⟩
  · rw [remappings_from_newline, parseRemappingLines_ok_iff]
    constructor
    · intro h l hl hne
      exact h l (List.mem_filter.mpr ⟨hl, by simp [hne]⟩)
    · intro h l hl
      obtain ⟨hl', hne⟩ := List.mem_filter.mp hl
      exact h l hl' (by simpa using hne)
  · intro m h
    obtain ⟨l, hl, hp, hm⟩ := parseRemappingLines_error_shape parse _ m h
    obtain ⟨hl', hne⟩ := List.mem_filter.mp hl
    exact ⟨l, hl', by simpa using hne, hp, hm⟩
  · intro rs h
    exact parseRemappingLines_ok_eq parse _ rs h

/-- Witness for C5: with a parser accepting only the line `good`, the
input `good\n\nbad` fails naming the line `bad`, while the empty middle
line is discarded. -/
theorem remappings_from_newline_error_spec_witness :
    ∃ l, l ∈ splitOnCharS '\n' "good\n\nbad" ∧ l.isEmpty = false ∧
      (fun x => if x = "good" then some (Remapping.mk "ds-test" "lib") else none) l
        = none ∧
      "could not parse remapping: bad" = "could not parse remapping: " ++ l :=
  (remappings_from_newline_error_spec
      (fun x => if x = "good" then some (Remapping.mk "ds-test" "lib") else none)
      "good\n\nbad").2.1 "could not parse remapping: bad" rfl

/-- C6: when `root` holds no `remappings.txt` (the file read yields
nothing), aggregation behaves exactly as if that source contributed
nothing: it succeeds whenever the remaining sources do, and the missing
file is never an error. -/
theorem aggregateRemappings_missing_txt (parse : String → Option Remapping)
    (discovered manual : List Remapping) (env : Option String) :
    aggregateRemappings parse discovered manual env none =
      match env with
      | none => Except.ok (resolveRemappings (discovered ++ manual))
      | some e => (remappings_from_newline parse e).map
          fun envRs => resolveRemappings (discovered ++ manual ++ envRs) := by
  rcases env with _ | e
  · simp [aggregateRemappings, Except.instMonad, Except.bind]
  · rcases he : remappings_from_newline parse e with m | envRs <;>
      simp [aggregateRemappings, he, Except.instMonad, Except.bind, Except.map]

/-- C8: under `--force`, the cache cleanup runs before the resolved
configuration is returned: a failing cleanup makes the whole resolution
return no configuration, and a returned configuration implies the
cleanup succeeded. -/
theorem project_force_cleanup (args : BuildArgs)
    (find_source_dir find_artifacts_dir : FsPath → FsPath)
    (find_libs : FsPath → List FsPath) (find_many : FsPath → List Remapping)
    (parse : String → Option Remapping) (root : FsPath) (remappingsTxt : Option String)
    (cleanup : Except String Unit) (hforce : args.force = true) :
    (∀ e, cleanup = Except.error e →
      (args.project find_source_dir find_artifacts_dir find_libs find_many parse root
        remappingsTxt cleanup).isOk = false) ∧
    (∀ p, args.project find_source_dir find_artifacts_dir find_libs find_many parse root
        remappingsTxt cleanup = Except.ok p →
      cleanup = Except.ok ()) := by
  constructor
  · rintro e rfl
    rcases h1 : aggregateRemappings parse ((args.libs find_libs root).flatMap find_many)
        args.remappings args.remappings_env remappingsTxt with m | rs
    · simp [BuildArgs.project, h1, hforce, Except.instMonad, Except.bind,
        Except.isOk, Except.toBool]
    · rcases h2 : parseLibraries args.libraries with m | t <;>
        simp [BuildArgs.project, h1, h2, hforce, Except.instMonad, Except.bind,
          Except.isOk, Except.toBool]
  · intro p hp
    rcases hc : cleanup with m | u
    · rw [hc] at hp
      rcases h1 : aggregateRemappings parse ((args.libs find_libs root).flatMap find_many)
          args.remappings args.remappings_env remappingsTxt with m' | rs
      · simp [BuildArgs.project, h1, hforce, Except.instMonad, Except.bind] at hp
      · rcases h2 : parseLibraries args.libraries with m' | t <;>
          simp [BuildArgs.project, h1, h2, hforce, Except.instMonad, Except.bind] at hp
    · cases u
      rfl

/-- Witness for C8: with `--force` set and a failing cleanup, resolution
at concrete inputs produces no configuration. -/
theorem project_force_cleanup_witness :
    (({ argsDefault with force := true } : BuildArgs).project (fun r => r) (fun r => r)
      (fun _ => []) (fun _ => []) (fun _ => none) [] none
      (Except.error "cleanup failed")).isOk = false :=
  (project_force_cleanup { argsDefault with force := true } (fun r => r) (fun r => r)
      (fun _ => []) (fun _ => []) (fun _ => none) [] none
      (Except.error "cleanup failed") rfl).1 "cleanup failed" rfl

end Foundry
